import Mathlib

/-!
# CodeTransporterWin: the message intake pipeline of `main.go`

A shallow embedding of `main.go`.  The handler `messagePubHandler`, the client
identifier generator `generateRandomClientID` and the start-up sequence of
`main` are translated from the source.  The library calls they make are
modelled next to them:

* `encoding/json.Unmarshal` into `SmsMessage`: a JSON reader over the text of
  the payload (grammar, escapes, nesting limit of the Go scanner) followed by
  the struct decoder (field lookup by exact, then case-folded name; `null`
  leaves a field alone; a value of the wrong kind is recorded as the saved
  error while decoding goes on);
* `clipboard.WriteAll` and `toast.Notification.Push`: effects on an explicit
  world, whose success or failure is an input of the model;
* `crypto/rand.Read` and `hex.EncodeToString`;
* the MQTT tokens of `Connect` and `Subscribe`: their error is an input.

The payload is taken as the code points of a UTF-8 text.  The sender of the
payloads is not part of the repository; for the round trip its serializer
follows the wire format of the spec, in any order of fields, style of escapes
and white space.
-/

namespace CodeTransporter

/-! ## JSON values and the reader -/

/-- A JSON value as the decoder sees it; a number keeps its literal. -/
inductive Json where
  | null : Json
  | bool (b : Bool) : Json
  | number (lit : String) : Json
  | str (s : String) : Json
  | arr (xs : List Json) : Json
  | obj (ms : List (String × Json)) : Json

/-- The nesting limit of the scanner (`maxNestingDepth` in `scanner.go`). -/
def maxNestingDepth : Nat := 10000

/-- The scanner's `isSpace`. -/
def isSpace (c : Char) : Bool :=
  c = ' ' || c = '\t' || c = '\r' || c = '\n'

/-- Skip insignificant white space. -/
def skipSpace : List Char → List Char
  | [] => []
  | c :: cs => if isSpace c then skipSpace cs else c :: cs

/-- Value of a hexadecimal digit, either case. -/
def hexVal (c : Char) : Option Nat :=
  if 48 ≤ c.toNat ∧ c.toNat ≤ 57 then some (c.toNat - 48)
  else if 97 ≤ c.toNat ∧ c.toNat ≤ 102 then some (c.toNat - 87)
  else if 65 ≤ c.toNat ∧ c.toNat ≤ 70 then some (c.toNat - 55)
  else none

/-- The four hexadecimal digits of a `\u` escape (`getu4` in `decode.go`). -/
def getu4 (a b c d : Char) : Option Nat :=
  match hexVal a, hexVal b, hexVal c, hexVal d with
  | some x, some y, some z, some w => some (((x * 16 + y) * 16 + z) * 16 + w)
  | _, _, _, _ => none

/-- The rune `utf16.IsSurrogate` accepts. -/
def isSurrogate (r : Nat) : Bool := 0xd800 ≤ r && r < 0xe000

/-- The Unicode replacement character U+FFFD. -/
def replacementChar : Char := Char.ofNat 0xfffd

/-- A surrogate pair decoded (`utf16.DecodeRune`); `none` when the pair is not valid. -/
def decodeSurrogates (r1 r2 : Nat) : Option Char :=
  if 0xd800 ≤ r1 ∧ r1 < 0xdc00 ∧ 0xdc00 ≤ r2 ∧ r2 < 0xe000 then
    some (Char.ofNat ((r1 - 0xd800) * 1024 + (r2 - 0xdc00) + 0x10000))
  else none

/-- The character a one-letter escape stands for. -/
def simpleEscape (e : Char) : Option Char :=
  if e = '"' then some '"'
  else if e = '\\' then some '\\'
  else if e = '/' then some '/'
  else if e = 'b' then some (Char.ofNat 8)
  else if e = 'f' then some (Char.ofNat 12)
  else if e = 'n' then some '\n'
  else if e = 'r' then some '\r'
  else if e = 't' then some '\t'
  else none

/-- Prepend a decoded character to the result of reading the rest of a string. -/
def consChar (c : Char) : Option (List Char × List Char) → Option (List Char × List Char)
  | some (s, r) => some (c :: s, r)
  | none => none

/-- The character a `\u` escape with a surrogate value stands for together
with the `\u` escape that follows it, when the two form a valid pair. -/
def pairedSurrogate (rr : Nat) (rest : List Char) : Option Char :=
  match rest with
  | b :: u :: g1 :: g2 :: g3 :: g4 :: _ =>
    if b = '\\' ∧ u = 'u' then
      match getu4 g1 g2 g3 g4 with
      | some rr1 => decodeSurrogates rr rr1
      | none => none
    else none
  | _ => none

/-- What stands at the head of the text inside a string literal: the closing
quote, a character together with the number of further characters of the text
that belong to its escape, or a syntax error. -/
inductive StringStep where
  | close : StringStep
  | emit (ch : Char) (more : Nat) : StringStep
  | bad : StringStep

/-- Classify the head `c` of the text inside a string literal, `rest` being
what follows it.  Control characters and unknown escapes are syntax errors; a
lone or mismatched surrogate escape decodes to U+FFFD. -/
def stringStep (c : Char) (rest : List Char) : StringStep :=
  if c = '"' then StringStep.close
  else if c = '\\' then
    match rest with
    | [] => StringStep.bad
    | e :: rest1 =>
      if e = 'u' then
        match rest1 with
        | h1 :: h2 :: h3 :: h4 :: rest2 =>
          match getu4 h1 h2 h3 h4 with
          | none => StringStep.bad
          | some rr =>
            if isSurrogate rr then
              match pairedSurrogate rr rest2 with
              | some ch => StringStep.emit ch 11
              | none => StringStep.emit replacementChar 5
            else StringStep.emit (Char.ofNat rr) 5
        | _ => StringStep.bad
      else
        match simpleEscape e with
        | some ch => StringStep.emit ch 1
        | none => StringStep.bad
  else if c.toNat < 0x20 then StringStep.bad
  else StringStep.emit c 0

/-- Read a string literal after its opening quote: the decoded characters and
the text after the closing quote.  The first argument counts the characters
still to pass over, those of the escape just decoded. -/
def parseStringFrom : Nat → List Char → Option (List Char × List Char)
  | _, [] => none
  | more + 1, _ :: rest => parseStringFrom more rest
  | 0, c :: rest =>
    match stringStep c rest with
    | StringStep.close => some ([], rest)
    | StringStep.emit ch more => consChar ch (parseStringFrom more rest)
    | StringStep.bad => none

/-- Read a string literal after its opening quote. -/
def parseStringBody (cs : List Char) : Option (List Char × List Char) :=
  parseStringFrom 0 cs

/-- A decimal digit. -/
def isDigit (c : Char) : Bool := 48 ≤ c.toNat && c.toNat ≤ 57

/-- The longest prefix of digits and what follows it. -/
def spanDigits : List Char → List Char × List Char
  | [] => ([], [])
  | c :: cs =>
    if isDigit c then ((spanDigits cs).1.cons c, (spanDigits cs).2) else ([], c :: cs)

/-- The optional exponent of a number. -/
def parseExponent (cs : List Char) : Option (List Char × List Char) :=
  match cs with
  | e :: rest =>
    if e = 'e' ∨ e = 'E' then
      match rest with
      | s :: rest1 =>
        if s = '+' ∨ s = '-' then
          match spanDigits rest1 with
          | ([], _) => none
          | (ds, r) => some (e :: s :: ds, r)
        else
          match spanDigits rest with
          | ([], _) => none
          | (ds, r) => some (e :: ds, r)
      | [] => none
    else some ([], cs)
  | [] => some ([], [])

/-- The optional fraction of a number, then its exponent. -/
def parseFraction (cs : List Char) : Option (List Char × List Char) :=
  match cs with
  | d :: rest =>
    if d = '.' then
      match spanDigits rest with
      | ([], _) => none
      | (ds, r) =>
        match parseExponent r with
        | some (ex, r1) => some (d :: ds ++ ex, r1)
        | none => none
    else parseExponent cs
  | [] => some ([], [])

/-- The integer part of a number without sign, then fraction and exponent. -/
def parseUnsigned (cs : List Char) : Option (List Char × List Char) :=
  match cs with
  | d :: rest =>
    if d = '0' then
      match parseFraction rest with
      | some (t, r) => some (d :: t, r)
      | none => none
    else if isDigit d then
      match parseFraction (spanDigits rest).2 with
      | some (t, r) => some (d :: (spanDigits rest).1 ++ t, r)
      | none => none
    else none
  | [] => none

/-- A number literal: its text and what follows it. -/
def parseNumber (cs : List Char) : Option (List Char × List Char) :=
  match cs with
  | c :: rest =>
    if c = '-' then
      match parseUnsigned rest with
      | some (t, r) => some (c :: t, r)
      | none => none
    else parseUnsigned cs
  | [] => none

/-- Strip a fixed word from the front of the text. -/
def stripWord : List Char → List Char → Option (List Char)
  | [], cs => some cs
  | _ :: _, [] => none
  | w :: ws, c :: cs => if w = c then stripWord ws cs else none

mutual

/-- Read one value at nesting depth `depth`; the text starts at the value. -/
def parseValue : Nat → Nat → List Char → Option (Json × List Char)
  | 0, _, _ => none
  | fuel + 1, depth, cs =>
    match cs with
    | [] => none
    | c :: rest =>
      if c = '{' then
        if depth + 1 ≤ maxNestingDepth then
          match skipSpace rest with
          | [] => none
          | d :: rest1 =>
            if d = '}' then some (Json.obj [], rest1)
            else
              match parseMembers fuel (depth + 1) (d :: rest1) with
              | some (ms, r) => some (Json.obj ms, r)
              | none => none
        else none
      else if c = '[' then
        if depth + 1 ≤ maxNestingDepth then
          match skipSpace rest with
          | [] => none
          | d :: rest1 =>
            if d = ']' then some (Json.arr [], rest1)
            else
              match parseElems fuel (depth + 1) (d :: rest1) with
              | some (xs, r) => some (Json.arr xs, r)
              | none => none
        else none
      else if c = '"' then
        match parseStringBody rest with
        | some (s, r) => some (Json.str (String.mk s), r)
        | none => none
      else if c = 't' then
        match stripWord ['r', 'u', 'e'] rest with
        | some r => some (Json.bool true, r)
        | none => none
      else if c = 'f' then
        match stripWord ['a', 'l', 's', 'e'] rest with
        | some r => some (Json.bool false, r)
        | none => none
      else if c = 'n' then
        match stripWord ['u', 'l', 'l'] rest with
        | some r => some (Json.null, r)
        | none => none
      else
        match parseNumber (c :: rest) with
        | some (t, r) => some (Json.number (String.mk t), r)
        | none => none

/-- Read the members of an object; the text starts at the quote of a key. -/
def parseMembers : Nat → Nat → List Char → Option (List (String × Json) × List Char)
  | 0, _, _ => none
  | fuel + 1, depth, cs =>
    match cs with
    | [] => none
    | q :: rest =>
      if q = '"' then
        match parseStringBody rest with
        | none => none
        | some (k, r1) =>
          match skipSpace r1 with
          | [] => none
          | colon :: r2 =>
            if colon = ':' then
              match parseValue fuel depth (skipSpace r2) with
              | none => none
              | some (v, r3) =>
                match skipSpace r3 with
                | [] => none
                | sep :: r4 =>
                  if sep = ',' then
                    match parseMembers fuel depth (skipSpace r4) with
                    | some (ms, r5) => some ((String.mk k, v) :: ms, r5)
                    | none => none
                  else if sep = '}' then some ([(String.mk k, v)], r4)
                  else none
            else none
      else none

/-- Read the elements of an array; the text starts at the first element. -/
def parseElems : Nat → Nat → List Char → Option (List Json × List Char)
  | 0, _, _ => none
  | fuel + 1, depth, cs =>
    match parseValue fuel depth cs with
    | none => none
    | some (v, r1) =>
      match skipSpace r1 with
      | [] => none
      | sep :: r2 =>
        if sep = ',' then
          match parseElems fuel depth (skipSpace r2) with
          | some (xs, r3) => some (v :: xs, r3)
          | none => none
        else if sep = ']' then some ([v], r2)
        else none

end

/-- Read a whole payload: one value, white space allowed around it and nothing
else (`checkValid`).  The fuel is more than twice the length of the text; a
nested call uses one unit and all but the first of an array read a shorter
text (`reader_fuel`, `reader_consumes` below). -/
def parse (payload : List Char) : Option Json :=
  match parseValue (2 * payload.length + 2) 0 (skipSpace payload) with
  | some (j, r) => if skipSpace r = [] then some j else none
  | none => none

/-! ## Decoding into `SmsMessage` -/

/-- The struct `SmsMessage` of `main.go`. -/
structure SmsMessage where
  Sender : String
  SmsCode : String
  PhoneNumber : String
  SmsMsg : String
deriving DecidableEq

/-- The fields of `SmsMessage`. -/
inductive Field where
  | Sender | SmsCode | PhoneNumber | SmsMsg
deriving DecidableEq

/-- The JSON name of a field, from its struct tag. -/
def Field.jsonName : Field → String
  | Field.Sender => "sender"
  | Field.SmsCode => "smsCode"
  | Field.PhoneNumber => "phoneNumber"
  | Field.SmsMsg => "smsMsg"

/-- The fields in declaration order. -/
def allFields : List Field :=
  [Field.Sender, Field.SmsCode, Field.PhoneNumber, Field.SmsMsg]

/-- Read a field. -/
def SmsMessage.get (m : SmsMessage) : Field → String
  | Field.Sender => m.Sender
  | Field.SmsCode => m.SmsCode
  | Field.PhoneNumber => m.PhoneNumber
  | Field.SmsMsg => m.SmsMsg

/-- Assign a field. -/
def SmsMessage.set (m : SmsMessage) (f : Field) (s : String) : SmsMessage :=
  match f with
  | Field.Sender => { m with Sender := s }
  | Field.SmsCode => { m with SmsCode := s }
  | Field.PhoneNumber => { m with PhoneNumber := s }
  | Field.SmsMsg => { m with SmsMsg := s }

/-- The smallest rune of the simple case-folding orbit (`foldRune` in
`fold.go`).  The orbits that meet ASCII are the letter pairs, with U+212A
(Kelvin sign) joining `K`, `k` and U+017F (long s) joining `S`, `s`.  A rune of
any other orbit folds to a rune outside ASCII; against the ASCII names of the
fields only that matters, and such a rune is kept as it is. -/
def foldRune (c : Char) : Char :=
  if 97 ≤ c.toNat ∧ c.toNat ≤ 122 then Char.ofNat (c.toNat - 32)
  else if c.toNat = 0x17f then 'S'
  else if c.toNat = 0x212a then 'K'
  else c

/-- The folded form of a key (`foldName`): two names match without regard to
case when their folded forms are equal. -/
def foldName (key : String) : String := String.mk (key.data.map foldRune)

/-- The field a key of the object is stored in: the field of that exact name,
or else the field whose name matches without regard to case. -/
def findField (key : String) : Option Field :=
  match allFields.find? (fun f => f.jsonName = key) with
  | some f => some f
  | none => allFields.find? (fun f => foldName f.jsonName = foldName key)

/-- The errors of `json.Unmarshal`: a syntax error, or a value whose kind does
not fit its destination (`UnmarshalTypeError`, with the kind of the value and
the field, if any). -/
inductive UnmarshalError where
  | syntaxError : UnmarshalError
  | typeError (value : String) (field : Option Field) : UnmarshalError
deriving DecidableEq

/-- The decoder's progress: the struct being filled and the first saved error. -/
structure DecodeState where
  msg : SmsMessage
  savedError : Option UnmarshalError
deriving DecidableEq

/-- Keep the first error (`saveError`). -/
def DecodeState.saveError (st : DecodeState) (e : UnmarshalError) : DecodeState :=
  match st.savedError with
  | none => { st with savedError := some e }
  | some _ => st

/-- Store a value into a string field: a string is assigned, `null` leaves the
field alone, a value of any other kind is skipped and saved as a type error. -/
def storeField (f : Field) (v : Json) (st : DecodeState) : DecodeState :=
  match v with
  | Json.str s => { st with msg := st.msg.set f s }
  | Json.null => st
  | Json.bool _ => st.saveError (UnmarshalError.typeError "bool" (some f))
  | Json.number _ => st.saveError (UnmarshalError.typeError "number" (some f))
  | Json.arr _ => st.saveError (UnmarshalError.typeError "array" (some f))
  | Json.obj _ => st.saveError (UnmarshalError.typeError "object" (some f))

/-- Decode one member of the object: a key that names no field is skipped. -/
def decodeMember (st : DecodeState) (kv : String × Json) : DecodeState :=
  match findField kv.1 with
  | some f => storeField f kv.2 st
  | none => st

/-- Decode the members of an object in order. -/
def decodeObject (ms : List (String × Json)) (st : DecodeState) : DecodeState :=
  ms.foldl decodeMember st

/-- Decode the top-level value into the struct: an object fills fields, `null`
is a no-op, any other kind is a type error. -/
def decodeValue (j : Json) (st : DecodeState) : DecodeState :=
  match j with
  | Json.obj ms => decodeObject ms st
  | Json.null => st
  | Json.bool _ => st.saveError (UnmarshalError.typeError "bool" none)
  | Json.number _ => st.saveError (UnmarshalError.typeError "number" none)
  | Json.str _ => st.saveError (UnmarshalError.typeError "string" none)
  | Json.arr _ => st.saveError (UnmarshalError.typeError "array" none)

/-- The zero value of `SmsMessage` (`var smsMsg SmsMessage`). -/
def SmsMessage.zero : SmsMessage := ⟨"", "", "", ""⟩

/-- The result of `json.Unmarshal(payload, &smsMsg)` on a zero `smsMsg`: the
error, or the struct as filled. -/
def Unmarshal (payload : List Char) : Except UnmarshalError SmsMessage :=
  match parse payload with
  | none => Except.error UnmarshalError.syntaxError
  | some j =>
    match (decodeValue j ⟨SmsMessage.zero, none⟩).savedError with
    | some e => Except.error e
    | none => Except.ok (decodeValue j ⟨SmsMessage.zero, none⟩).msg

/-! ## The world of the handler -/

/-- The struct `toast.Notification`, with the fields the handler sets. -/
structure Notification where
  AppID : String
  Title : String
  Message : String
deriving DecidableEq

/-- An argument of a log line. -/
inductive LogArg where
  | str (s : String) : LogArg
  | err (e : UnmarshalError) : LogArg
deriving DecidableEq

/-- What the handler does to the outside, in the order it does it; a write and
a push carry whether they returned an error. -/
inductive Event where
  | printf (format : String) (args : List LogArg) : Event
  | clipboardWrite (text : String) (failed : Bool) : Event
  | push (n : Notification) (failed : Bool) : Event
deriving DecidableEq

/-- The clipboard and the record of events so far. -/
structure World where
  clipboard : String
  trace : List Event
deriving DecidableEq

/-- How the desktop answers: whether a clipboard write of a text fails, what a
failed write leaves on the clipboard, and whether a push fails. -/
structure Platform where
  writeFails : String → String → Bool
  residue : String → String → String
  pushFails : Notification → Bool

/-- Append an event to the record. -/
def World.emit (w : World) (e : Event) : World :=
  { w with trace := w.trace ++ [e] }

/-- The call `logger.Printf(format, args...)`. -/
def Printf (format : String) (args : List LogArg) (w : World) : World :=
  w.emit (Event.printf format args)

/-- The call `clipboard.WriteAll(text)`: a write that succeeds replaces the
content of the clipboard.  Returns the world and whether an error came back. -/
def WriteAll (p : Platform) (text : String) (w : World) : World × Bool :=
  if p.writeFails text w.clipboard then
    ({ clipboard := p.residue text w.clipboard,
       trace := w.trace ++ [Event.clipboardWrite text true] }, true)
  else
    ({ clipboard := text, trace := w.trace ++ [Event.clipboardWrite text false] }, false)

/-- The call `notification.Push()`. -/
def Push (p : Platform) (n : Notification) (w : World) : World × Bool :=
  (w.emit (Event.push n (p.pushFails n)), p.pushFails n)

/-- Fill the `%s` verbs of a format with the arguments, in order. -/
def sprintfAux : List Char → List String → List Char
  | [], _ => []
  | [c], _ => [c]
  | c :: d :: rest, args =>
    if c = '%' ∧ d = 's' then
      match args with
      | a :: as => a.data ++ sprintfAux rest as
      | [] => c :: d :: sprintfAux rest []
    else c :: sprintfAux (d :: rest) args

/-- The call `fmt.Sprintf(format, args...)` for `%s` verbs and string arguments. -/
def Sprintf (format : String) (args : List String) : String :=
  String.mk (sprintfAux format.data args)

/-- The handler of `main.go`, lines 55 to 81. -/
def messagePubHandler (p : Platform) (payload : List Char) (w : World) : World :=
  match Unmarshal payload with
  | Except.error err => Printf "消息解析错误: %v\n" [LogArg.err err] w
  | Except.ok smsMsg =>
    if smsMsg.SmsCode ≠ "" then
      let w1 := Printf "接收到消息: 发送者: %s, 验证码: %s, 手机号: %s\n"
        [LogArg.str smsMsg.Sender, LogArg.str smsMsg.SmsCode, LogArg.str smsMsg.PhoneNumber] w
      let w2 := (WriteAll p smsMsg.SmsCode w1).1
      let notification : Notification :=
        { AppID := "手机消息接收器",
          Title := Sprintf "来自: %s" [smsMsg.PhoneNumber],
          Message := Sprintf "验证码: %s\n发送者: %s" [smsMsg.SmsCode, smsMsg.Sender] }
      (Push p notification w2).1
    else
      let w1 := Printf "接收到消息: 短信内容: %s, 手机号: %s\n"
        [LogArg.str smsMsg.SmsMsg, LogArg.str smsMsg.PhoneNumber] w
      let notification : Notification :=
        { AppID := "手机消息接收器",
          Title := Sprintf "来自: %s" [smsMsg.PhoneNumber],
          Message := Sprintf "内容: %s" [smsMsg.SmsMsg] }
      (Push p notification w1).1

/-- The notifications pushed in a record of events, in order. -/
def pushed : List Event → List Notification
  | [] => []
  | Event.push n _ :: es => n :: pushed es
  | _ :: es => pushed es

/-- The texts written to the clipboard in a record of events, in order. -/
def written : List Event → List String
  | [] => []
  | Event.clipboardWrite t _ :: es => t :: written es
  | _ :: es => written es

/-- A desktop on which no write and no push fails. -/
def quietPlatform : Platform :=
  { writeFails := fun _ _ => false, residue := fun _ old => old, pushFails := fun _ => false }

/-- A desktop on which every write and every push fails, a failed write
leaving the clipboard empty. -/
def brokenPlatform : Platform :=
  { writeFails := fun _ _ => true, residue := fun _ _ => "", pushFails := fun _ => true }

/-! ## The client identifier -/

/-- The outcome of the draw `rand.Read` makes: `none` when the source fails,
else the stream the bytes are taken from. -/
abbrev Rand := Option (Nat → Nat)

/-- The call `rand.Read(bytes)`: on success every byte of the buffer is drawn. -/
def randRead (rng : Rand) (bytes : List Nat) : Option (List Nat) :=
  match rng with
  | none => none
  | some src => some ((List.range bytes.length).map (fun i => src i % 256))

/-- The digits of `encoding/hex`. -/
def hextable : List Char := "0123456789abcdef".data

/-- The digit `hextable[i]`. -/
def hexDigit (i : Nat) : Char := hextable.getD i '0'

/-- The loop of `hex.Encode`: two digits per byte, `hextable[v>>4]` then
`hextable[v&0x0f]`. -/
def encodeBytes : List Nat → List Char
  | [] => []
  | v :: vs => hexDigit (v / 16) :: hexDigit (v % 16) :: encodeBytes vs

/-- The call `hex.EncodeToString(src)`. -/
def EncodeToString (src : List Nat) : String := String.mk (encodeBytes src)

/-- The function `generateRandomClientID` of `main.go`; the error is the fatal
log line that ends the process. -/
def generateRandomClientID (rng : Rand) (length : Nat) : Except String String :=
  let bytes := List.replicate length 0
  match randRead rng bytes with
  | none => Except.error "生成随机客户端ID失败: %v"
  | some bytes => Except.ok (EncodeToString bytes)

/-- A hexadecimal digit. -/
def isHexDigit (c : Char) : Bool :=
  (48 ≤ c.toNat && c.toNat ≤ 57) || (97 ≤ c.toNat && c.toNat ≤ 102)
    || (65 ≤ c.toNat && c.toNat ≤ 70)

/-! ## Start-up -/

/-- The struct `Config` of `main.go`. -/
structure Config where
  Broker : String
  Topic : String

/-- An MQTT token once complete: the error it carries, if any. -/
structure Token where
  error : Option String

/-- The call `token.Wait()`: blocks until the token is complete, then `true`. -/
def Token.Wait (_t : Token) : Bool := true

/-- What the broker answers to the client: the token of `Connect` and the token
of `Subscribe` on a topic. -/
structure Client where
  Connect : Token
  Subscribe : String → Token

/-- How a run of `main` goes on after start-up. -/
inductive Ending where
  | fatal (line : String) : Ending
  | panicked (err : String) : Ending
  | trayLoop (clientID : String) : Ending
deriving DecidableEq

/-- A run of `main`: the lines it logged itself, and how it went on. -/
structure Run where
  log : List Event
  ending : Ending
deriving DecidableEq

/-- The function `subscribe` of `main.go`: the log lines after it. -/
def subscribe (client : Client) (topic : String) (log : List Event) : List Event :=
  let token := client.Subscribe topic
  let _ := token.Wait
  log ++ [Event.printf "已订阅主题: %s\n" [LogArg.str topic]]

/-- The function `main` of `main.go`, up to the entry into the tray loop. -/
def main (cfg : Config) (rng : Rand) (client : Client) : Run :=
  match generateRandomClientID rng 10 with
  | Except.error line => { log := [], ending := Ending.fatal line }
  | Except.ok randomClientID =>
    let token := client.Connect
    match token.Wait, token.error with
    | true, some err => { log := [], ending := Ending.panicked err }
    | _, _ =>
      let log := subscribe client cfg.Topic []
      { log := log, ending := Ending.trayLoop randomClientID }

/-! ## The sender's side of the wire format -/

/-- How a serializer writes a character of a string: as it is unless JSON
requires an escape, with the two-character escape where there is one, or as a
`\u` escape with lower or upper case digits. -/
inductive EscapeStyle where
  | plain : EscapeStyle
  | short : EscapeStyle
  | unicode (upper : Bool) : EscapeStyle

/-- A white space character a serializer may put between tokens. -/
inductive Space where
  | space | tab | cr | lf

/-- The character of a white space. -/
def Space.char : Space → Char
  | Space.space => ' '
  | Space.tab => '\t'
  | Space.cr => '\r'
  | Space.lf => '\n'

/-- The choices a serializer makes: the escape of each character and the white
space it puts around tokens. -/
structure Style where
  escape : Char → EscapeStyle
  pad : List Space

/-- The white space of a style as text. -/
def Style.ws (sty : Style) : List Char := sty.pad.map Space.char

/-- A hexadecimal digit in lower or upper case. -/
def hexDigitOf (upper : Bool) (i : Nat) : Char :=
  if upper then "0123456789ABCDEF".data.getD i '0' else hexDigit i

/-- The escape `\uXXXX` of a code unit. -/
def unicodeEscape (upper : Bool) (n : Nat) : List Char :=
  ['\\', 'u', hexDigitOf upper (n / 4096 % 16), hexDigitOf upper (n / 256 % 16),
    hexDigitOf upper (n / 16 % 16), hexDigitOf upper (n % 16)]

/-- A character as `\u` escapes: one for the basic plane, a surrogate pair above. -/
def unicodeEscapes (upper : Bool) (c : Char) : List Char :=
  if c.toNat < 0x10000 then unicodeEscape upper c.toNat
  else
    unicodeEscape upper (0xd800 + (c.toNat - 0x10000) / 1024)
      ++ unicodeEscape upper (0xdc00 + (c.toNat - 0x10000) % 1024)

/-- The letter of the two-character escape of a character, if it has one. -/
def shortEscape (c : Char) : Option Char :=
  if c = '"' then some '"'
  else if c = '\\' then some '\\'
  else if c = '/' then some '/'
  else if c.toNat = 8 then some 'b'
  else if c.toNat = 12 then some 'f'
  else if c = '\n' then some 'n'
  else if c = '\r' then some 'r'
  else if c = '\t' then some 't'
  else none

/-- The characters JSON does not allow as they are inside a string. -/
def mustEscape (c : Char) : Bool := c = '"' || c = '\\' || c.toNat < 0x20

/-- A character inside a JSON string literal, in a given style. -/
def quoteChar (style : EscapeStyle) (c : Char) : List Char :=
  match style with
  | EscapeStyle.unicode upper => unicodeEscapes upper c
  | EscapeStyle.short =>
    match shortEscape c with
    | some e => ['\\', e]
    | none => if mustEscape c then unicodeEscapes false c else [c]
  | EscapeStyle.plain =>
    if mustEscape c then
      match shortEscape c with
      | some e => ['\\', e]
      | none => unicodeEscapes false c
    else [c]

/-- The characters of a string, escaped. -/
def quoteBody (sty : Style) : List Char → List Char
  | [] => []
  | c :: cs => quoteChar (sty.escape c) c ++ quoteBody sty cs

/-- A string literal. -/
def quote (sty : Style) (s : String) : List Char :=
  '"' :: (quoteBody sty s.data ++ ['"'])

/-- One member, written `"key":"value"` with the white space of the style
around the colon. -/
def renderMember (sty : Style) (kv : String × String) : List Char :=
  quote sty kv.1 ++ (sty.ws ++ ':' :: (sty.ws ++ quote sty kv.2))

/-- The members of an object, separated by commas with the white space of the
style around them. -/
def renderMembers (sty : Style) : List (String × String) → List Char
  | [] => []
  | [kv] => renderMember sty kv
  | kv :: kv' :: ms =>
    renderMember sty kv ++ (sty.ws ++ ',' :: (sty.ws ++ renderMembers sty (kv' :: ms)))

/-- An object whose values are strings, with the white space of the style
before, inside and after the braces. -/
def renderObject (sty : Style) (ms : List (String × String)) : List Char :=
  sty.ws ++ '{' :: (sty.ws ++ (renderMembers sty ms ++ (sty.ws ++ '}' :: sty.ws)))

/-- The members written for an envelope: the listed fields, each under its
name with its value. -/
def envelopeMembers (fields : List Field) (m : SmsMessage) : List (String × String) :=
  fields.map (fun f => (f.jsonName, m.get f))

/-- The JSON text of an envelope, after the wire format of the spec,
`{"sender":"...","smsCode":"...","phoneNumber":"...","smsMsg":"..."}`: the
listed fields in the listed order, in the style of the serializer. -/
def serializeEnvelope (sty : Style) (fields : List Field) (m : SmsMessage) : List Char :=
  renderObject sty (envelopeMembers fields m)

/-- The style that escapes only what JSON requires and adds no white space. -/
def compactStyle : Style := { escape := fun _ => EscapeStyle.plain, pad := [] }

/-- A style that writes every character as a `\u` escape in upper case and a
line break and a space between tokens. -/
def verboseStyle : Style :=
  { escape := fun _ => EscapeStyle.unicode true, pad := [Space.lf, Space.space] }

/-! ## Auxiliary definitions for the statements -/

/-- The notification the handler builds for a decoded envelope. -/
def notificationOf (m : SmsMessage) : Notification :=
  if m.SmsCode ≠ "" then
    { AppID := "手机消息接收器",
      Title := "来自: " ++ m.PhoneNumber,
      Message := "验证码: " ++ m.SmsCode ++ "\n" ++ "发送者: " ++ m.Sender }
  else
    { AppID := "手机消息接收器",
      Title := "来自: " ++ m.PhoneNumber,
      Message := "内容: " ++ m.SmsMsg }

/-- The kinds of top-level value the decoder rejects for a struct. -/
def rejectedKind : Json → Option String
  | Json.arr _ => some "array"
  | Json.str _ => some "string"
  | Json.number _ => some "number"
  | Json.bool _ => some "bool"
  | Json.null => none
  | Json.obj _ => none

/-! ## The reader consumes text, and its fuel is enough -/

theorem skipSpace_length (cs : List Char) : (skipSpace cs).length ≤ cs.length := by
  induction cs with
  | nil => simp [skipSpace]
  | cons c cs ih =>
    unfold skipSpace
    split
    · simp; omega
    · simp

theorem consChar_some (c : Char) (o : Option (List Char × List Char)) (s r : List Char)
    (h : consChar c o = some (s, r)) : ∃ s', o = some (s', r) := by
  cases o with
  | none => simp [consChar] at h
  | some p =>
    obtain ⟨s', r'⟩ := p
    simp only [consChar, Option.some.injEq, Prod.mk.injEq] at h
    exact ⟨s', by rw [h.2]⟩

theorem parseStringFrom_rest (k : Nat) (cs s r : List Char)
    (h : parseStringFrom k cs = some (s, r)) : r.length < cs.length := by
  induction cs generalizing k s with
  | nil => simp [parseStringFrom] at h
  | cons c rest ih =>
    cases k with
    | succ k =>
      simp only [parseStringFrom] at h
      have := ih k s h
      simp; omega
    | zero =>
      simp only [parseStringFrom] at h
      split at h
      · simp only [Option.some.injEq, Prod.mk.injEq] at h
        rw [← h.2]; simp
      · obtain ⟨s', hs⟩ := consChar_some _ _ _ _ h
        have := ih _ s' hs
        simp; omega
      · simp at h

theorem parseStringBody_rest (cs s r : List Char) (h : parseStringBody cs = some (s, r)) :
    r.length < cs.length :=
  parseStringFrom_rest 0 cs s r h

theorem spanDigits_length (cs : List Char) : (spanDigits cs).2.length ≤ cs.length := by
  induction cs with
  | nil => simp [spanDigits]
  | cons c cs ih =>
    unfold spanDigits
    split
    · simp; omega
    · simp

theorem parseExponent_rest (cs t r : List Char) (h : parseExponent cs = some (t, r)) :
    r.length ≤ cs.length := by
  unfold parseExponent at h
  split at h
  · rename_i e rest
    split at h
    · split at h
      · rename_i s rest1
        have h1 := spanDigits_length rest1
        have h2 := spanDigits_length (s :: rest1)
        split at h
        · split at h
          · simp at h
          · rename_i ds r' hsp
            simp only [Option.some.injEq, Prod.mk.injEq] at h
            rw [hsp] at h1
            simp only at h1
            rw [← h.2]; simp; omega
        · split at h
          · simp at h
          · rename_i ds r' hsp
            simp only [Option.some.injEq, Prod.mk.injEq] at h
            rw [hsp] at h2
            simp only [List.length_cons] at h2
            rw [← h.2]; simp; omega
      · simp at h
    · simp only [Option.some.injEq, Prod.mk.injEq] at h
      rw [← h.2]
  · simp only [Option.some.injEq, Prod.mk.injEq] at h
    rw [← h.2]

theorem parseFraction_rest (cs t r : List Char) (h : parseFraction cs = some (t, r)) :
    r.length ≤ cs.length := by
  unfold parseFraction at h
  split at h
  · rename_i d rest
    split at h
    · have h1 := spanDigits_length rest
      split at h
      · simp at h
      · rename_i ds r' hsp
        rw [hsp] at h1
        simp only at h1
        split at h
        · rename_i ex r1 hex
          have h2 := parseExponent_rest _ _ _ hex
          simp only [Option.some.injEq, Prod.mk.injEq] at h
          rw [← h.2]; simp; omega
        · simp at h
    · exact parseExponent_rest _ _ _ h
  · simp only [Option.some.injEq, Prod.mk.injEq] at h
    rw [← h.2]

theorem parseUnsigned_rest (cs t r : List Char) (h : parseUnsigned cs = some (t, r)) :
    r.length < cs.length := by
  unfold parseUnsigned at h
  split at h
  · rename_i d rest
    split at h
    · split at h
      · rename_i t' r' hf
        have h1 := parseFraction_rest _ _ _ hf
        simp only [Option.some.injEq, Prod.mk.injEq] at h
        rw [← h.2]; simp; omega
      · simp at h
    · split at h
      · split at h
        · rename_i t' r' hf
          have h1 := parseFraction_rest _ _ _ hf
          have h2 := spanDigits_length rest
          simp only [Option.some.injEq, Prod.mk.injEq] at h
          rw [← h.2]; simp; omega
        · simp at h
      · simp at h
  · simp at h

theorem parseNumber_rest (cs t r : List Char) (h : parseNumber cs = some (t, r)) :
    r.length < cs.length := by
  unfold parseNumber at h
  split at h
  · rename_i c rest
    split at h
    · split at h
      · rename_i t' r' hu
        have h1 := parseUnsigned_rest _ _ _ hu
        simp only [Option.some.injEq, Prod.mk.injEq] at h
        rw [← h.2]; simp; omega
      · simp at h
    · exact parseUnsigned_rest _ _ _ h
  · simp at h

theorem stripWord_rest (w cs r : List Char) (h : stripWord w cs = some r) :
    r.length ≤ cs.length := by
  induction w generalizing cs with
  | nil => simp [stripWord] at h; rw [h]
  | cons x w ih =>
    cases cs with
    | nil => simp [stripWord] at h
    | cons c cs =>
      simp only [stripWord] at h
      split at h
      · have := ih cs h
        simp; omega
      · simp at h

theorem skipSpace_cons_length (cs : List Char) (c : Char) (r : List Char)
    (h : skipSpace cs = c :: r) : r.length < cs.length := by
  have := skipSpace_length cs
  rw [h] at this
  simp only [List.length_cons] at this
  omega

/-- What a call of the reader leaves is shorter than what it was given. -/
theorem reader_consumes (f : Nat) :
    (∀ d cs v r, parseValue f d cs = some (v, r) → r.length < cs.length)
      ∧ (∀ d cs ms r, parseMembers f d cs = some (ms, r) → r.length < cs.length)
      ∧ (∀ d cs xs r, parseElems f d cs = some (xs, r) → r.length < cs.length) := by
  induction f with
  | zero =>
    refine ⟨?_, ?_, ?_⟩ <;> intro d cs v r h <;> simp [parseValue, parseMembers, parseElems] at h
  | succ f ih =>
    obtain ⟨ihV, ihM, ihE⟩ := ih
    refine ⟨?_, ?_, ?_⟩
    · intro d cs v r h
      simp only [parseValue] at h
      split at h
      · simp at h
      · rename_i c rest
        split at h
        · split at h
          · split at h
            · simp at h
            · rename_i d' rest1 hsk
              have h1 := skipSpace_cons_length _ _ _ hsk
              split at h
              · simp only [Option.some.injEq, Prod.mk.injEq] at h
                rw [← h.2]; simp; omega
              · split at h
                · rename_i ms r' hm
                  have h2 := ihM _ _ _ _ hm
                  simp only [Option.some.injEq, Prod.mk.injEq] at h
                  rw [← h.2]; simp at h2 ⊢; omega
                · simp at h
          · simp at h
        · split at h
          · split at h
            · split at h
              · simp at h
              · rename_i d' rest1 hsk
                have h1 := skipSpace_cons_length _ _ _ hsk
                split at h
                · simp only [Option.some.injEq, Prod.mk.injEq] at h
                  rw [← h.2]; simp; omega
                · split at h
                  · rename_i xs r' hm
                    have h2 := ihE _ _ _ _ hm
                    simp only [Option.some.injEq, Prod.mk.injEq] at h
                    rw [← h.2]; simp at h2 ⊢; omega
                  · simp at h
            · simp at h
          · split at h
            · split at h
              · rename_i s r' hs
                have h1 := parseStringBody_rest _ _ _ hs
                simp only [Option.some.injEq, Prod.mk.injEq] at h
                rw [← h.2]; simp; omega
              · simp at h
            · split at h
              · split at h
                · rename_i r' hw
                  have h1 := stripWord_rest _ _ _ hw
                  simp only [Option.some.injEq, Prod.mk.injEq] at h
                  rw [← h.2]; simp; omega
                · simp at h
              · split at h
                · split at h
                  · rename_i r' hw
                    have h1 := stripWord_rest _ _ _ hw
                    simp only [Option.some.injEq, Prod.mk.injEq] at h
                    rw [← h.2]; simp; omega
                  · simp at h
                · split at h
                  · split at h
                    · rename_i r' hw
                      have h1 := stripWord_rest _ _ _ hw
                      simp only [Option.some.injEq, Prod.mk.injEq] at h
                      rw [← h.2]; simp; omega
                    · simp at h
                  · split at h
                    · rename_i t r' hn
                      have h1 := parseNumber_rest _ _ _ hn
                      simp only [Option.some.injEq, Prod.mk.injEq] at h
                      rw [← h.2]; simpa using h1
                    · simp at h
    · intro d cs ms r h
      simp only [parseMembers] at h
      split at h
      · simp at h
      · rename_i q rest
        split at h
        · split at h
          · simp at h
          · rename_i k r1 hk
            have h1 := parseStringBody_rest _ _ _ hk
            split at h
            · simp at h
            · rename_i colon r2 hsk
              have h2 := skipSpace_cons_length _ _ _ hsk
              split at h
              · split at h
                · simp at h
                · rename_i v r3 hv
                  have h3 := ihV _ _ _ _ hv
                  have h3' := skipSpace_length r2
                  split at h
                  · simp at h
                  · rename_i sep r4 hsk4
                    have h4 := skipSpace_cons_length _ _ _ hsk4
                    split at h
                    · split at h
                      · rename_i ms' r5 hm
                        have h5 := ihM _ _ _ _ hm
                        have h5' := skipSpace_length r4
                        simp only [Option.some.injEq, Prod.mk.injEq] at h
                        rw [← h.2]; simp; omega
                      · simp at h
                    · split at h
                      · simp only [Option.some.injEq, Prod.mk.injEq] at h
                        rw [← h.2]; simp; omega
                      · simp at h
              · simp at h
        · simp at h
    · intro d cs xs r h
      simp only [parseElems] at h
      split at h
      · simp at h
      · rename_i v r1 hv
        have h1 := ihV _ _ _ _ hv
        split at h
        · simp at h
        · rename_i sep r2 hsk
          have h2 := skipSpace_cons_length _ _ _ hsk
          split at h
          · split at h
            · rename_i xs' r3 hm
              have h3 := ihE _ _ _ _ hm
              have h3' := skipSpace_length r2
              simp only [Option.some.injEq, Prod.mk.injEq] at h
              rw [← h.2]; omega
            · simp at h
          · split at h
            · simp only [Option.some.injEq, Prod.mk.injEq] at h
              rw [← h.2]; omega
            · simp at h

/-- More fuel than twice the length of the text never changes what the reader
returns. -/
theorem reader_fuel (f : Nat) :
    (∀ f' d cs, 2 * cs.length + 1 ≤ f → f ≤ f' → parseValue f' d cs = parseValue f d cs)
      ∧ (∀ f' d cs, 2 * cs.length + 2 ≤ f → f ≤ f' →
          parseMembers f' d cs = parseMembers f d cs)
      ∧ (∀ f' d cs, 2 * cs.length + 2 ≤ f → f ≤ f' →
          parseElems f' d cs = parseElems f d cs) := by
  induction f with
  | zero =>
    refine ⟨?_, ?_, ?_⟩ <;> intro f' d cs h1 _ <;> omega
  | succ f ih =>
    obtain ⟨ihV, ihM, ihE⟩ := ih
    obtain ⟨cV, cM, cE⟩ := reader_consumes f
    refine ⟨?_, ?_, ?_⟩
    · intro f' d cs hlen hle
      obtain ⟨g, rfl⟩ : ∃ g, f' = g + 1 := ⟨f' - 1, by omega⟩
      cases cs with
      | nil => simp [parseValue]
      | cons c rest =>
        have hsk := skipSpace_length rest
        simp only [List.length_cons] at hlen
        have hM := ihM g (d + 1) (skipSpace rest) (by omega) (by omega)
        have hE := ihE g (d + 1) (skipSpace rest) (by omega) (by omega)
        simp only [parseValue]
        cases hs : skipSpace rest with
        | nil => rfl
        | cons d' rest1 =>
          rw [hs] at hM hE
          simp only [hM, hE]
    · intro f' d cs hlen hle
      obtain ⟨g, rfl⟩ : ∃ g, f' = g + 1 := ⟨f' - 1, by omega⟩
      cases cs with
      | nil => simp [parseMembers]
      | cons q rest =>
        simp only [List.length_cons] at hlen
        simp only [parseMembers]
        split
        · cases hk : parseStringBody rest with
          | none => rfl
          | some kr =>
            obtain ⟨k, r1⟩ := kr
            have h1 := parseStringBody_rest _ _ _ hk
            simp only
            cases hs : skipSpace r1 with
            | nil => rfl
            | cons colon r2 =>
              have h2 := skipSpace_cons_length _ _ _ hs
              have h2' := skipSpace_length r2
              simp only
              split
              · rw [ihV g d (skipSpace r2) (by omega) (by omega)]
                cases hv : parseValue f d (skipSpace r2) with
                | none => rfl
                | some vr =>
                  obtain ⟨v, r3⟩ := vr
                  have h3 := cV _ _ _ _ hv
                  simp only
                  cases hs4 : skipSpace r3 with
                  | nil => rfl
                  | cons sep r4 =>
                    have h4 := skipSpace_cons_length _ _ _ hs4
                    have h4' := skipSpace_length r4
                    simp only
                    rw [ihM g d (skipSpace r4) (by omega) (by omega)]
              · rfl
        · rfl
    · intro f' d cs hlen hle
      obtain ⟨g, rfl⟩ : ∃ g, f' = g + 1 := ⟨f' - 1, by omega⟩
      simp only [parseElems]
      rw [ihV g d cs (by omega) (by omega)]
      cases hv : parseValue f d cs with
      | none => rfl
      | some vr =>
        obtain ⟨v, r1⟩ := vr
        have h1 := cV _ _ _ _ hv
        simp only
        cases hs : skipSpace r1 with
        | nil => rfl
        | cons sep r2 =>
          have h2 := skipSpace_cons_length _ _ _ hs
          have h2' := skipSpace_length r2
          simp only
          rw [ihE g d (skipSpace r2) (by omega) (by omega)]

/-- The reader run on a whole payload gives the same with any greater fuel. -/
theorem parse_fuel (payload : List Char) (extra : Nat) :
    parseValue (2 * payload.length + 2 + extra) 0 (skipSpace payload)
      = parseValue (2 * payload.length + 2) 0 (skipSpace payload) := by
  have h := skipSpace_length payload
  exact (reader_fuel (2 * payload.length + 2)).1 _ 0 _ (by omega) (by omega)

/-! ## Lemmas on the handler -/

theorem sprintf_title (x : String) : Sprintf "来自: %s" [x] = "来自: " ++ x := by
  apply String.ext; simp [Sprintf, sprintfAux]

theorem sprintf_code (x y : String) :
    Sprintf "验证码: %s\n发送者: %s" [x, y] = "验证码: " ++ x ++ "\n" ++ "发送者: " ++ y := by
  apply String.ext; simp [Sprintf, sprintfAux]

theorem sprintf_content (x : String) : Sprintf "内容: %s" [x] = "内容: " ++ x := by
  apply String.ext; simp [Sprintf, sprintfAux]

theorem handler_error (p : Platform) (payload : List Char) (w : World) (e : UnmarshalError)
    (h : Unmarshal payload = Except.error e) :
    messagePubHandler p payload w
      = { clipboard := w.clipboard,
          trace := w.trace ++ [Event.printf "消息解析错误: %v\n" [LogArg.err e]] } := by
  simp [messagePubHandler, h, Printf, World.emit]

theorem handler_code (p : Platform) (payload : List Char) (w : World) (m : SmsMessage)
    (h : Unmarshal payload = Except.ok m) (hc : m.SmsCode ≠ "") :
    messagePubHandler p payload w
      = { clipboard :=
            if p.writeFails m.SmsCode w.clipboard then p.residue m.SmsCode w.clipboard
            else m.SmsCode,
          trace := w.trace ++
            [Event.printf "接收到消息: 发送者: %s, 验证码: %s, 手机号: %s\n"
               [LogArg.str m.Sender, LogArg.str m.SmsCode, LogArg.str m.PhoneNumber],
             Event.clipboardWrite m.SmsCode (p.writeFails m.SmsCode w.clipboard),
             Event.push (notificationOf m) (p.pushFails (notificationOf m))] } := by
  simp only [messagePubHandler, h, Printf, World.emit, WriteAll, Push, notificationOf,
    sprintf_title, sprintf_code, if_pos hc]
  by_cases hf : p.writeFails m.SmsCode w.clipboard = true <;> simp [hf]

theorem handler_message (p : Platform) (payload : List Char) (w : World) (m : SmsMessage)
    (h : Unmarshal payload = Except.ok m) (hc : m.SmsCode = "") :
    messagePubHandler p payload w
      = { clipboard := w.clipboard,
          trace := w.trace ++
            [Event.printf "接收到消息: 短信内容: %s, 手机号: %s\n"
               [LogArg.str m.SmsMsg, LogArg.str m.PhoneNumber],
             Event.push (notificationOf m) (p.pushFails (notificationOf m))] } := by
  have hn : ¬ m.SmsCode ≠ "" := by simp [hc]
  simp only [messagePubHandler, h, Printf, World.emit, Push, notificationOf,
    sprintf_title, sprintf_content, if_neg hn]
  simp

theorem pushed_append (es fs : List Event) : pushed (es ++ fs) = pushed es ++ pushed fs := by
  induction es with
  | nil => rfl
  | cons e es ih => cases e <;> simp [pushed, ih]

theorem written_append (es fs : List Event) : written (es ++ fs) = written es ++ written fs := by
  induction es with
  | nil => rfl
  | cons e es ih => cases e <;> simp [written, ih]

/-! ## Lemmas on the decoder -/

theorem mem_allFields (f : Field) : f ∈ allFields := by
  cases f <;> simp [allFields]

theorem findField_none_iff (k : String) :
    findField k = none ↔ ∀ f : Field, foldName f.jsonName ≠ foldName k := by
  unfold findField
  constructor
  · intro h f
    cases h1 : allFields.find? (fun f => f.jsonName = k) with
    | some g => simp [h1] at h
    | none =>
      simp only [h1] at h
      have := List.find?_eq_none.mp h f (mem_allFields f)
      simpa using this
  · intro h
    have h1 : allFields.find? (fun f => decide (f.jsonName = k)) = none := by
      apply List.find?_eq_none.mpr
      intro f _
      have := h f
      simp only [decide_eq_true_eq]
      intro e
      exact this (by rw [e])
    simp only [h1]
    apply List.find?_eq_none.mpr
    intro f _
    simpa using h f

theorem findField_some_fold (k : String) (f : Field) (h : findField k = some f) :
    foldName f.jsonName = foldName k := by
  unfold findField at h
  cases h1 : allFields.find? (fun f => f.jsonName = k) with
  | some g =>
    simp only [h1, Option.some.injEq] at h
    have := List.find?_some h1
    simp only [decide_eq_true_eq] at this
    rw [← h, this]
  | none =>
    simp only [h1] at h
    have := List.find?_some h
    simpa using this

theorem decodeMember_unknown (st : DecodeState) (k : String) (v : Json)
    (h : findField k = none) : decodeMember st (k, v) = st := by
  simp [decodeMember, h]

theorem decodeObject_append (ms₁ ms₂ : List (String × Json)) (st : DecodeState) :
    decodeObject (ms₁ ++ ms₂) st = decodeObject ms₂ (decodeObject ms₁ st) := by
  simp [decodeObject, List.foldl_append]

theorem decodeObject_insert_unknown (ms₁ ms₂ : List (String × Json)) (k : String) (v : Json)
    (st : DecodeState) (h : findField k = none) :
    decodeObject (ms₁ ++ (k, v) :: ms₂) st = decodeObject (ms₁ ++ ms₂) st := by
  rw [decodeObject_append, decodeObject_append]
  simp [decodeObject, List.foldl_cons, decodeMember_unknown _ k v h]

theorem saveError_msg (st : DecodeState) (e : UnmarshalError) : (st.saveError e).msg = st.msg := by
  unfold DecodeState.saveError; split <;> rfl

theorem set_get_ne (m : SmsMessage) (f g : Field) (s : String) (h : g ≠ f) :
    (m.set g s).get f = m.get f := by
  cases f <;> cases g <;> first | rfl | exact absurd rfl h

theorem storeField_get_ne (f g : Field) (v : Json) (st : DecodeState) (h : g ≠ f) :
    (storeField g v st).msg.get f = st.msg.get f := by
  cases v <;> simp [storeField, saveError_msg, set_get_ne _ _ _ _ h]

theorem decodeObject_get_absent (f : Field) (ms : List (String × Json)) (st : DecodeState)
    (h : ∀ kv ∈ ms, findField kv.1 ≠ some f) :
    (decodeObject ms st).msg.get f = st.msg.get f := by
  induction ms generalizing st with
  | nil => rfl
  | cons kv ms ih =>
    have hkv := h kv (List.mem_cons_self kv ms)
    have hrest : ∀ x ∈ ms, findField x.1 ≠ some f := fun x hx => h x (List.mem_cons_of_mem kv hx)
    show (decodeObject ms (decodeMember st kv)).msg.get f = st.msg.get f
    rw [ih _ hrest]
    unfold decodeMember
    cases hf : findField kv.1 with
    | none => rfl
    | some g =>
      have hne : g ≠ f := fun e => hkv (by rw [hf, e])
      simp [storeField_get_ne f g kv.2 st hne]

theorem unmarshal_object (payload : List Char) (ms : List (String × Json))
    (h : parse payload = some (Json.obj ms)) :
    Unmarshal payload =
      match (decodeObject ms ⟨SmsMessage.zero, none⟩).savedError with
      | some e => Except.error e
      | none => Except.ok (decodeObject ms ⟨SmsMessage.zero, none⟩).msg := by
  simp [Unmarshal, h, decodeValue]

theorem handler_congr (p : Platform) (payload payload' : List Char) (w : World)
    (h : Unmarshal payload' = Unmarshal payload) :
    messagePubHandler p payload' w = messagePubHandler p payload w := by
  simp [messagePubHandler, h]

/-! ## Lemmas on the round trip -/

theorem hexVal_hexDigitOf (upper : Bool) (i : Nat) (h : i < 16) :
    hexVal (hexDigitOf upper i) = some i := by
  cases upper <;> interval_cases i <;> rfl

theorem getu4_unicodeEscape (upper : Bool) (n : Nat) (h : n < 65536) :
    getu4 (hexDigitOf upper (n / 4096 % 16)) (hexDigitOf upper (n / 256 % 16))
      (hexDigitOf upper (n / 16 % 16)) (hexDigitOf upper (n % 16)) = some n := by
  unfold getu4
  rw [hexVal_hexDigitOf upper _ (Nat.mod_lt _ (by decide)),
    hexVal_hexDigitOf upper _ (Nat.mod_lt _ (by decide)),
    hexVal_hexDigitOf upper _ (Nat.mod_lt _ (by decide)),
    hexVal_hexDigitOf upper _ (Nat.mod_lt _ (by decide))]
  simp only [Option.some.injEq]
  omega

theorem char_valid (c : Char) : c.toNat < 0xd800 ∨ (0xdfff < c.toNat ∧ c.toNat < 0x110000) :=
  c.valid

theorem parseStringFrom_skip5 (a b c d e : Char) (tail : List Char) :
    parseStringFrom 5 (a :: b :: c :: d :: e :: tail) = parseStringFrom 0 tail := by
  simp [parseStringFrom]

theorem parseStringFrom_unicodeEscape (upper : Bool) (n : Nat) (h : n < 65536)
    (hs : isSurrogate n = false) (tail : List Char) :
    parseStringFrom 0 (unicodeEscape upper n ++ tail)
      = consChar (Char.ofNat n) (parseStringFrom 0 tail) := by
  simp only [unicodeEscape, List.cons_append, List.nil_append]
  rw [parseStringFrom]
  simp only [stringStep, getu4_unicodeEscape upper n h, hs]
  simp [parseStringFrom_skip5]

theorem parseStringFrom_surrogates (upper : Bool) (hi lo : Nat)
    (h1 : 0xd800 ≤ hi) (h2 : hi < 0xdc00) (h3 : 0xdc00 ≤ lo) (h4 : lo < 0xe000)
    (tail : List Char) :
    parseStringFrom 0 (unicodeEscape upper hi ++ (unicodeEscape upper lo ++ tail))
      = consChar (Char.ofNat ((hi - 0xd800) * 1024 + (lo - 0xdc00) + 0x10000))
          (parseStringFrom 0 tail) := by
  have hsur : isSurrogate hi = true := by simp [isSurrogate]; omega
  have hdec : decodeSurrogates hi lo
      = some (Char.ofNat ((hi - 0xd800) * 1024 + (lo - 0xdc00) + 0x10000)) := by
    simp [decodeSurrogates]; omega
  simp only [unicodeEscape, List.cons_append, List.nil_append]
  rw [parseStringFrom]
  simp only [stringStep, getu4_unicodeEscape upper hi (by omega), hsur, pairedSurrogate,
    getu4_unicodeEscape upper lo (by omega), hdec]
  simp [parseStringFrom]

theorem parseStringFrom_unicodeEscapes (upper : Bool) (c : Char) (tail : List Char) :
    parseStringFrom 0 (unicodeEscapes upper c ++ tail)
      = consChar c (parseStringFrom 0 tail) := by
  have hv := char_valid c
  unfold unicodeEscapes
  by_cases hb : c.toNat < 0x10000
  · rw [if_pos hb, parseStringFrom_unicodeEscape upper c.toNat hb
      (by simp [isSurrogate]; omega), Char.ofNat_toNat]
  · rw [if_neg hb, List.append_assoc,
      parseStringFrom_surrogates upper _ _ (by omega) (by omega) (by omega) (by omega)]
    have he : (0xd800 + (c.toNat - 0x10000) / 1024 - 0xd800) * 1024
        + (0xdc00 + (c.toNat - 0x10000) % 1024 - 0xdc00) + 0x10000 = c.toNat := by omega
    rw [he, Char.ofNat_toNat]

theorem parseStringFrom_shortEscape (c e : Char) (h : shortEscape c = some e)
    (tail : List Char) :
    parseStringFrom 0 ('\\' :: e :: tail) = consChar c (parseStringFrom 0 tail) := by
  have key : e ≠ 'u' ∧ simpleEscape e = some c := by
    unfold shortEscape at h
    split at h
    · rename_i hc; subst hc; simp at h; subst h; exact ⟨by decide, rfl⟩
    split at h
    · rename_i hc; subst hc; simp at h; subst h; exact ⟨by decide, rfl⟩
    split at h
    · rename_i hc; subst hc; simp at h; subst h; exact ⟨by decide, rfl⟩
    split at h
    · rename_i hc
      have : c = Char.ofNat 8 := by rw [← hc, Char.ofNat_toNat]
      subst this; simp at h; subst h; exact ⟨by decide, rfl⟩
    split at h
    · rename_i hc
      have : c = Char.ofNat 12 := by rw [← hc, Char.ofNat_toNat]
      subst this; simp at h; subst h; exact ⟨by decide, rfl⟩
    split at h
    · rename_i hc; subst hc; simp at h; subst h; exact ⟨by decide, rfl⟩
    split at h
    · rename_i hc; subst hc; simp at h; subst h; exact ⟨by decide, rfl⟩
    split at h
    · rename_i hc; subst hc; simp at h; subst h; exact ⟨by decide, rfl⟩
    · simp at h
  rw [parseStringFrom]
  simp [stringStep, key.1, key.2, parseStringFrom]

theorem parseStringFrom_raw (c : Char) (h : mustEscape c = false) (tail : List Char) :
    parseStringFrom 0 (c :: tail) = consChar c (parseStringFrom 0 tail) := by
  simp only [mustEscape, Bool.or_eq_false_iff, decide_eq_false_iff_not, not_lt] at h
  obtain ⟨⟨h1, h2⟩, h3⟩ := h
  have h3' : ¬ c.toNat < 32 := by omega
  rw [parseStringFrom]
  simp [stringStep, h1, h2, h3']

theorem parseStringFrom_quoteChar (style : EscapeStyle) (c : Char) (tail : List Char) :
    parseStringFrom 0 (quoteChar style c ++ tail) = consChar c (parseStringFrom 0 tail) := by
  cases style with
  | unicode upper => exact parseStringFrom_unicodeEscapes upper c tail
  | short =>
    simp only [quoteChar]
    cases hs : shortEscape c with
    | some e => exact parseStringFrom_shortEscape c e hs tail
    | none =>
      simp only
      by_cases hm : mustEscape c = true
      · rw [if_pos hm]; exact parseStringFrom_unicodeEscapes false c tail
      · rw [if_neg hm]; exact parseStringFrom_raw c (by simpa using hm) tail
  | plain =>
    simp only [quoteChar]
    by_cases hm : mustEscape c = true
    · rw [if_pos hm]
      cases hs : shortEscape c with
      | some e => exact parseStringFrom_shortEscape c e hs tail
      | none => exact parseStringFrom_unicodeEscapes false c tail
    · rw [if_neg hm]; exact parseStringFrom_raw c (by simpa using hm) tail

theorem parseStringBody_quoteBody (sty : Style) (s rest : List Char) :
    parseStringBody (quoteBody sty s ++ '"' :: rest) = some (s, rest) := by
  unfold parseStringBody
  induction s with
  | nil => simp [quoteBody, parseStringFrom, stringStep]
  | cons c cs ih =>
    simp only [quoteBody, List.append_assoc]
    rw [parseStringFrom_quoteChar, ih]
    rfl

theorem skipSpace_ws (sty : Style) (tail : List Char) :
    skipSpace (sty.ws ++ tail) = skipSpace tail := by
  unfold Style.ws
  induction sty.pad with
  | nil => rfl
  | cons x xs ih =>
    cases x <;> simp [Space.char, skipSpace, isSpace, ih]

theorem parseValue_quote (sty : Style) (n d : Nat) (s : String) (rest : List Char) :
    parseValue (n + 1) d (quote sty s ++ rest) = some (Json.str s, rest) := by
  simp [quote, parseValue, parseStringBody_quoteBody]

theorem skipSpace_quote (sty : Style) (s : String) (rest : List Char) :
    skipSpace (quote sty s ++ rest) = quote sty s ++ rest := by
  simp [quote, skipSpace, isSpace]

theorem parseMembers_member (sty : Style) (n d : Nat) (kv : String × String)
    (tail : List Char) :
    parseMembers (n + 2) d (renderMember sty kv ++ tail)
      = match skipSpace tail with
        | [] => none
        | sep :: r4 =>
          if sep = ',' then
            match parseMembers (n + 1) d (skipSpace r4) with
            | some (ms, r5) => some ((kv.1, Json.str kv.2) :: ms, r5)
            | none => none
          else if sep = '}' then some ([(kv.1, Json.str kv.2)], r4)
          else none := by
  have hv := parseValue_quote sty n d kv.2 tail
  have hcolon : skipSpace (sty.ws ++ ':' :: (sty.ws ++ (quote sty kv.2 ++ tail)))
      = ':' :: (sty.ws ++ (quote sty kv.2 ++ tail)) := by
    rw [skipSpace_ws]; simp [skipSpace, isSpace]
  have hval : skipSpace (sty.ws ++ (quote sty kv.2 ++ tail)) = quote sty kv.2 ++ tail := by
    rw [skipSpace_ws, skipSpace_quote]
  simp only [renderMember, List.append_assoc, List.cons_append]
  have hq : quote sty kv.1 ++ (sty.ws ++ ':' :: (sty.ws ++ (quote sty kv.2 ++ tail)))
      = '"' :: (quoteBody sty kv.1.data
          ++ '"' :: (sty.ws ++ ':' :: (sty.ws ++ (quote sty kv.2 ++ tail)))) := by
    simp [quote]
  rw [hq, parseMembers]
  simp only [if_true, parseStringBody_quoteBody, hcolon, hval, hv]

theorem renderMembers_head (sty : Style) (kv : String × String)
    (ms : List (String × String)) :
    ∃ t, renderMembers sty (kv :: ms) = '"' :: t := by
  cases ms with
  | nil => exact ⟨_, rfl⟩
  | cons kv' ms => exact ⟨_, rfl⟩

theorem skipSpace_renderMembers (sty : Style) (kv : String × String)
    (ms : List (String × String)) (tail : List Char) :
    skipSpace (renderMembers sty (kv :: ms) ++ tail) = renderMembers sty (kv :: ms) ++ tail := by
  obtain ⟨t, ht⟩ := renderMembers_head sty kv ms
  rw [ht]
  simp [skipSpace, isSpace]

theorem parseMembers_render (sty : Style) (ms : List (String × String)) (hne : ms ≠ [])
    (n d : Nat) (rest : List Char) :
    parseMembers (n + ms.length + 1) d (renderMembers sty ms ++ (sty.ws ++ '}' :: rest))
      = some (ms.map (fun kv => (kv.1, Json.str kv.2)), rest) := by
  induction ms generalizing n with
  | nil => exact absurd rfl hne
  | cons kv ms ih =>
    cases ms with
    | nil =>
      simp only [renderMembers, List.length_singleton]
      rw [show n + 1 + 1 = n + 2 from rfl, parseMembers_member, skipSpace_ws]
      simp [skipSpace, isSpace]
    | cons kv' ms =>
      have ih' := ih (by simp) n
      simp only [renderMembers, List.length_cons, List.append_assoc, List.cons_append]
      rw [show n + (ms.length + 1 + 1) + 1 = (n + (ms.length + 1)) + 2 by omega,
        parseMembers_member, skipSpace_ws]
      have hs : skipSpace (',' :: (sty.ws ++ (renderMembers sty (kv' :: ms)
          ++ (sty.ws ++ '}' :: rest))))
          = ',' :: (sty.ws ++ (renderMembers sty (kv' :: ms) ++ (sty.ws ++ '}' :: rest))) := by
        simp [skipSpace, isSpace]
      rw [hs]
      simp only [if_true, skipSpace_ws, skipSpace_renderMembers]
      simp only [List.length_cons] at ih'
      rw [ih']
      rfl

theorem renderMembers_length (sty : Style) (ms : List (String × String)) :
    ms.length ≤ (renderMembers sty ms).length := by
  induction ms with
  | nil => simp
  | cons kv ms ih =>
    cases ms with
    | nil => simp [renderMembers, renderMember, quote]
    | cons kv' ms => simp [renderMembers, renderMember, quote] at ih ⊢; omega

theorem parse_renderObject (sty : Style) (ms : List (String × String)) :
    parse (renderObject sty ms) = some (Json.obj (ms.map (fun kv => (kv.1, Json.str kv.2)))) := by
  unfold parse
  cases ms with
  | nil =>
    simp only [renderObject, renderMembers, List.nil_append, skipSpace_ws]
    have h1 : skipSpace ('{' :: (sty.ws ++ (sty.ws ++ '}' :: sty.ws)))
        = '{' :: (sty.ws ++ (sty.ws ++ '}' :: sty.ws)) := by simp [skipSpace, isSpace]
    have h2 : skipSpace ('}' :: sty.ws) = '}' :: sty.ws := by simp [skipSpace, isSpace]
    have h3 : skipSpace sty.ws = [] := by
      have := skipSpace_ws sty []
      simpa [skipSpace] using this
    rw [h1, parseValue]
    simp [skipSpace_ws, h2, h3, maxNestingDepth]
  | cons kv ms =>
    obtain ⟨t, ht⟩ := renderMembers_head sty kv ms
    have hlen := renderMembers_length sty (kv :: ms)
    obtain ⟨n, hn⟩ : ∃ n, 2 * (renderObject sty (kv :: ms)).length + 2
        = (n + (kv :: ms).length + 1) + 1 :=
      ⟨2 * (renderObject sty (kv :: ms)).length - (kv :: ms).length, by
        simp [renderObject] at hlen ⊢; omega⟩
    have hm := parseMembers_render sty (kv :: ms) (by simp) n 1 sty.ws
    have h3 : skipSpace sty.ws = [] := by
      have := skipSpace_ws sty []
      simpa [skipSpace] using this
    rw [hn]
    simp only [renderObject, skipSpace_ws]
    have h1 : ∀ x, skipSpace ('{' :: x) = '{' :: x := by intro x; simp [skipSpace, isSpace]
    rw [h1, parseValue]
    simp only [if_true, skipSpace_ws, skipSpace_renderMembers]
    rw [ht] at hm ⊢
    simp only [List.cons_append, List.length_cons] at hm ⊢
    simp [maxNestingDepth, hm, h3]

theorem findField_jsonName (f : Field) : findField f.jsonName = some f := by
  cases f <;> rfl

theorem set_get_self (m : SmsMessage) (f : Field) (s : String) : (m.set f s).get f = s := by
  cases f <;> rfl

theorem SmsMessage.ext_get (m₁ m₂ : SmsMessage) (h : ∀ f : Field, m₁.get f = m₂.get f) :
    m₁ = m₂ := by
  obtain ⟨a, b, c, d⟩ := m₁
  obtain ⟨a', b', c', d'⟩ := m₂
  have h1 := h Field.Sender
  have h2 := h Field.SmsCode
  have h3 := h Field.PhoneNumber
  have h4 := h Field.SmsMsg
  simp only [SmsMessage.get] at h1 h2 h3 h4
  rw [h1, h2, h3, h4]

theorem decodeObject_fields (m : SmsMessage) (fs : List Field) (st : DecodeState) :
    (decodeObject (fs.map (fun f => (f.jsonName, Json.str (m.get f)))) st).savedError
        = st.savedError
      ∧ ∀ g : Field,
          (decodeObject (fs.map (fun f => (f.jsonName, Json.str (m.get f)))) st).msg.get g
            = if g ∈ fs then m.get g else st.msg.get g := by
  induction fs generalizing st with
  | nil => exact ⟨rfl, fun g => by simp [decodeObject]⟩
  | cons f fs ih =>
    have hstep : decodeObject ((f :: fs).map (fun f => (f.jsonName, Json.str (m.get f)))) st
        = decodeObject (fs.map (fun f => (f.jsonName, Json.str (m.get f))))
            { st with msg := st.msg.set f (m.get f) } := by
      simp [decodeObject, decodeMember, findField_jsonName, storeField]
    rw [hstep]
    obtain ⟨herr, hget⟩ := ih { st with msg := st.msg.set f (m.get f) }
    refine ⟨herr, fun g => ?_⟩
    rw [hget g]
    by_cases hg : g ∈ fs
    · simp [hg]
    · by_cases hgf : g = f
      · subst hgf; simp [hg, set_get_self]
      · have hne : f ≠ g := fun e => hgf e.symm
        simp [hg, hgf, set_get_ne _ _ _ _ hne]

theorem decode_envelopeMembers (fields : List Field) (m : SmsMessage)
    (hfields : ∀ f : Field, f ∉ fields → m.get f = "") :
    decodeObject ((envelopeMembers fields m).map (fun kv => (kv.1, Json.str kv.2)))
        ⟨SmsMessage.zero, none⟩
      = ⟨m, none⟩ := by
  have hmap : (envelopeMembers fields m).map (fun kv => (kv.1, Json.str kv.2))
      = fields.map (fun f => (f.jsonName, Json.str (m.get f))) := by
    simp [envelopeMembers, List.map_map, Function.comp_def]
  rw [hmap]
  obtain ⟨herr, hget⟩ := decodeObject_fields m fields ⟨SmsMessage.zero, none⟩
  have hmsg : (decodeObject (fields.map (fun f => (f.jsonName, Json.str (m.get f))))
      ⟨SmsMessage.zero, none⟩).msg = m := by
    apply SmsMessage.ext_get
    intro g
    rw [hget g]
    by_cases hin : g ∈ fields
    · rw [if_pos hin]
    · rw [if_neg hin, hfields g hin]
      cases g <;> rfl
  cases hd : decodeObject (fields.map (fun f => (f.jsonName, Json.str (m.get f))))
      ⟨SmsMessage.zero, none⟩ with
  | mk msg err =>
    rw [hd] at herr hmsg
    simp only at herr hmsg
    rw [herr, hmsg]

/-! ## Lemmas on the client identifier and on start-up -/

theorem unmarshal_rejected (payload : List Char) (j : Json) (kind : String)
    (hparse : parse payload = some j) (hkind : rejectedKind j = some kind) :
    Unmarshal payload = Except.error (UnmarshalError.typeError kind none) := by
  cases j <;> simp [rejectedKind] at hkind <;>
    simp [Unmarshal, hparse, decodeValue, DecodeState.saveError, hkind]

theorem hexDigit_isHex (i : Nat) (h : i < 16) : isHexDigit (hexDigit i) = true := by
  interval_cases i <;> decide

theorem encodeBytes_length (bs : List Nat) : (encodeBytes bs).length = 2 * bs.length := by
  induction bs with
  | nil => rfl
  | cons b bs ih => simp [encodeBytes, ih]; omega

theorem encodeBytes_hex (bs : List Nat) (hb : ∀ b ∈ bs, b < 256) :
    ∀ c ∈ encodeBytes bs, isHexDigit c = true := by
  induction bs with
  | nil => intro c hc; simp [encodeBytes] at hc
  | cons b bs ih =>
    intro c hc
    have hlt : b < 256 := hb b (List.mem_cons_self b bs)
    simp only [encodeBytes, List.mem_cons] at hc
    rcases hc with rfl | rfl | hc
    · exact hexDigit_isHex _ (by omega)
    · exact hexDigit_isHex _ (by omega)
    · exact ih (fun x hx => hb x (List.mem_cons_of_mem b hx)) c hc

theorem generateRandomClientID_ok (src : Nat → Nat) (n : Nat) :
    ∃ id : String,
      generateRandomClientID (some src) n = Except.ok id
        ∧ id.length = 2 * n ∧ ∀ c ∈ id.data, isHexDigit c = true := by
  refine ⟨EncodeToString ((List.range n).map (fun i => src i % 256)), ?_, ?_, ?_⟩
  · simp [generateRandomClientID, randRead]
  · simp [EncodeToString, String.length, encodeBytes_length]
  · apply encodeBytes_hex
    intro b hb
    simp only [List.mem_map] at hb
    obtain ⟨i, _, rfl⟩ := hb
    exact Nat.mod_lt _ (by decide)

theorem main_ignores_subscribe_error (cfg : Config) (src : Nat → Nat) (client : Client)
    (hconnect : client.Connect.error = none) :
    ∃ id : String,
      main cfg (some src) client
        = { log := [Event.printf "已订阅主题: %s\n" [LogArg.str cfg.Topic]],
            ending := Ending.trayLoop id } := by
  obtain ⟨id, hid, _, _⟩ := generateRandomClientID_ok src 10
  exact ⟨id, by simp [main, hid, hconnect, subscribe]⟩

/-! ## The claims -/

/-- C1: for every payload that decodes to an envelope with a non-empty smsCode,
and every prior clipboard content, the clipboard holds exactly that smsCode
after the handler, a write being modelled as replacing the content (the write
does not fail). -/
theorem clipboard_holds_code (p : Platform) (payload : List Char) (w : World) (m : SmsMessage)
    (hdec : Unmarshal payload = Except.ok m) (hcode : m.SmsCode ≠ "")
    (hwrite : p.writeFails m.SmsCode w.clipboard = false) :
    (messagePubHandler p payload w).clipboard = m.SmsCode := by
  rw [handler_code p payload w m hdec hcode]
  simp [hwrite]

theorem clipboard_holds_code_witness :
    Unmarshal "\x7b\"sender\":\"X\",\"smsCode\":\"42\",\"phoneNumber\":\"+1\",\"smsMsg\":\"ignored\"\x7d".data
        = Except.ok ⟨"X", "42", "+1", "ignored"⟩
      ∧ (messagePubHandler quietPlatform
          "\x7b\"sender\":\"X\",\"smsCode\":\"42\",\"phoneNumber\":\"+1\",\"smsMsg\":\"ignored\"\x7d".data
          ⟨"old", []⟩).clipboard = "42" :=
  ⟨rfl, clipboard_holds_code quietPlatform _ ⟨"old", []⟩ ⟨"X", "42", "+1", "ignored"⟩ rfl
    (by decide) rfl⟩

/-- C2: for every payload that decodes to an envelope with an empty smsCode,
and every prior clipboard content, the handler makes no clipboard write and the
clipboard content after it equals the content before. -/
theorem clipboard_untouched_without_code (p : Platform) (payload : List Char) (w : World)
    (m : SmsMessage) (hdec : Unmarshal payload = Except.ok m) (hcode : m.SmsCode = "") :
    (messagePubHandler p payload w).clipboard = w.clipboard
      ∧ written (messagePubHandler p payload w).trace = written w.trace := by
  rw [handler_message p payload w m hdec hcode]
  simp [written_append, written]

theorem clipboard_untouched_without_code_witness :
    (messagePubHandler brokenPlatform
        "\x7b\"sender\":\"\",\"smsCode\":\"\",\"phoneNumber\":\"+15550002\",\"smsMsg\":\"Hello\"\x7d".data
        ⟨"old", []⟩).clipboard = "old"
      ∧ written (messagePubHandler brokenPlatform
        "\x7b\"sender\":\"\",\"smsCode\":\"\",\"phoneNumber\":\"+15550002\",\"smsMsg\":\"Hello\"\x7d".data
        ⟨"old", []⟩).trace = [] :=
  clipboard_untouched_without_code brokenPlatform _ ⟨"old", []⟩ ⟨"", "", "+15550002", "Hello"⟩
    rfl rfl

/-- C3: for every payload on which decoding fails, the handler returns with the
clipboard as it was and with one more event, the log line of the parse error:
no notification, no clipboard write.  A payload handled next meets the same
clipboard and yields the events it would have yielded without the failure. -/
theorem malformed_payload_dropped (p : Platform) (payload : List Char) (w : World)
    (e : UnmarshalError) (hdec : Unmarshal payload = Except.error e) :
    messagePubHandler p payload w
        = { clipboard := w.clipboard,
            trace := w.trace ++ [Event.printf "消息解析错误: %v\n" [LogArg.err e]] }
      ∧ pushed (messagePubHandler p payload w).trace = pushed w.trace
      ∧ written (messagePubHandler p payload w).trace = written w.trace
      ∧ ∀ next : List Char,
          (messagePubHandler p next (messagePubHandler p payload w)).clipboard
              = (messagePubHandler p next w).clipboard
            ∧ (messagePubHandler p next (messagePubHandler p payload w)).trace
              = w.trace ++ [Event.printf "消息解析错误: %v\n" [LogArg.err e]]
                  ++ (messagePubHandler p next ⟨w.clipboard, []⟩).trace := by
  rw [handler_error p payload w e hdec]
  refine ⟨rfl, by simp [pushed_append, pushed], by simp [written_append, written], ?_⟩
  intro next
  cases hn : Unmarshal next with
  | error e2 => simp [handler_error p next _ e2 hn]
  | ok m =>
    by_cases hc : m.SmsCode = ""
    · simp [handler_message p next _ m hn hc]
    · simp [handler_code p next _ m hn hc]

theorem malformed_payload_dropped_witness :
    Unmarshal "not json".data = Except.error UnmarshalError.syntaxError
      ∧ messagePubHandler quietPlatform "not json".data ⟨"old", []⟩
        = { clipboard := "old",
            trace := [Event.printf "消息解析错误: %v\n"
              [LogArg.err UnmarshalError.syntaxError]] } :=
  ⟨rfl, (malformed_payload_dropped quietPlatform "not json".data ⟨"old", []⟩
    UnmarshalError.syntaxError rfl).1⟩

/-- C4, as the code has it: for every decoded envelope the handler pushes one
notification, whose title is "来自: " followed by phoneNumber and whose body is
"验证码: " ++ smsCode ++ "\n" ++ "发送者: " ++ sender when smsCode is non-empty
and "内容: " ++ smsMsg when it is empty. -/
theorem notification_text (p : Platform) (payload : List Char) (w : World) (m : SmsMessage)
    (hdec : Unmarshal payload = Except.ok m) :
    pushed (messagePubHandler p payload w).trace
      = pushed w.trace ++
        [{ AppID := "手机消息接收器",
           Title := "来自: " ++ m.PhoneNumber,
           Message :=
             if m.SmsCode ≠ "" then "验证码: " ++ m.SmsCode ++ "\n" ++ "发送者: " ++ m.Sender
             else "内容: " ++ m.SmsMsg }] := by
  by_cases hc : m.SmsCode = ""
  · rw [handler_message p payload w m hdec hc]
    simp [pushed_append, pushed, notificationOf, hc]
  · rw [handler_code p payload w m hdec hc]
    simp [pushed_append, pushed, notificationOf, hc]

theorem notification_text_witness :
    Unmarshal "\x7b\"sender\":\"\",\"smsCode\":\"\",\"phoneNumber\":\"+15550002\",\"smsMsg\":\"Hello\"\x7d".data
        = Except.ok ⟨"", "", "+15550002", "Hello"⟩
      ∧ pushed (messagePubHandler quietPlatform
          "\x7b\"sender\":\"\",\"smsCode\":\"\",\"phoneNumber\":\"+15550002\",\"smsMsg\":\"Hello\"\x7d".data
          ⟨"", []⟩).trace
        = [⟨"手机消息接收器", "来自: +15550002", "内容: Hello"⟩] :=
  ⟨rfl, notification_text quietPlatform _ ⟨"", []⟩ ⟨"", "", "+15550002", "Hello"⟩ rfl⟩

/-- C4 as stated fails: on the envelope of the code-extraction scenario the
notification pushed has the title "来自: +15550001" and the body
"验证码: 123456\n发送者: Bank", not "From: +15550001" and
"Code: 123456\nSender: Bank". -/
theorem notification_text_not_english :
    Unmarshal
        "\x7b\"sender\":\"Bank\",\"smsCode\":\"123456\",\"phoneNumber\":\"+15550001\",\"smsMsg\":\"\"\x7d".data
        = Except.ok ⟨"Bank", "123456", "+15550001", ""⟩
      ∧ pushed (messagePubHandler quietPlatform
          "\x7b\"sender\":\"Bank\",\"smsCode\":\"123456\",\"phoneNumber\":\"+15550001\",\"smsMsg\":\"\"\x7d".data
          ⟨"", []⟩).trace
        = [⟨"手机消息接收器", "来自: +15550001", "验证码: 123456\n发送者: Bank"⟩]
      ∧ ("来自: +15550001" : String) ≠ "From: " ++ "+15550001"
      ∧ ("验证码: 123456\n发送者: Bank" : String)
          ≠ "Code: " ++ "123456" ++ "\n" ++ "Sender: " ++ "Bank" :=
  ⟨rfl, rfl, by decide, by decide⟩

/-- C5: whenever the random draw succeeds, `generateRandomClientID` with length
`n` returns a string of exactly `2 * n` characters, each a hexadecimal digit;
the call of `main`, with length 10, returns 20 of them. -/
theorem client_id_is_hex (src : Nat → Nat) :
    (∀ n : Nat, ∃ id : String,
        generateRandomClientID (some src) n = Except.ok id
          ∧ id.length = 2 * n ∧ ∀ c ∈ id.data, isHexDigit c = true)
      ∧ ∃ id : String,
          generateRandomClientID (some src) 10 = Except.ok id
            ∧ id.length = 20 ∧ ∀ c ∈ id.data, isHexDigit c = true :=
  ⟨generateRandomClientID_ok src, generateRandomClientID_ok src 10⟩

/-- C6: every tuple `(sender, smsCode, phoneNumber, smsMsg)`, written as a JSON
object under those four keys in any order, escape style and white space, fields
left out being empty, is decoded by the handler's decoder without error to
exactly that tuple. -/
theorem envelope_round_trip (sty : Style) (fields : List Field) (m : SmsMessage)
    (hfields : ∀ f : Field, f ∉ fields → m.get f = "") :
    Unmarshal (serializeEnvelope sty fields m) = Except.ok m := by
  have hparse := parse_renderObject sty (envelopeMembers fields m)
  unfold serializeEnvelope
  rw [unmarshal_object _ _ hparse, decode_envelopeMembers fields m hfields]

theorem envelope_round_trip_witness :
    (∀ f : Field, f ∉ [Field.Sender, Field.SmsCode, Field.PhoneNumber] →
        (⟨"Bank", "123456", "+15550001", ""⟩ : SmsMessage).get f = "")
      ∧ String.mk (serializeEnvelope compactStyle
          [Field.Sender, Field.SmsCode, Field.PhoneNumber] ⟨"Bank", "123456", "+15550001", ""⟩)
        = "\x7b\"sender\":\"Bank\",\"smsCode\":\"123456\",\"phoneNumber\":\"+15550001\"\x7d"
      ∧ Unmarshal (serializeEnvelope compactStyle
          [Field.Sender, Field.SmsCode, Field.PhoneNumber] ⟨"Bank", "123456", "+15550001", ""⟩)
        = Except.ok ⟨"Bank", "123456", "+15550001", ""⟩ :=
  ⟨fun f hf => by cases f <;> first | rfl | simp at hf, rfl,
   envelope_round_trip compactStyle [Field.Sender, Field.SmsCode, Field.PhoneNumber]
     ⟨"Bank", "123456", "+15550001", ""⟩ (fun f hf => by cases f <;> first | rfl | simp at hf)⟩

/-- C7, as the code has it: in an object payload, a field that no key matches,
exactly or without regard to case, decodes to the empty string; and a member
whose key matches none of the four names, exactly or without regard to case,
changes neither the result of decoding nor what the handler does. -/
theorem unmatched_keys_ignored :
    (∀ (payload : List Char) (ms : List (String × Json)) (f : Field) (m : SmsMessage),
        parse payload = some (Json.obj ms) →
        (∀ kv ∈ ms, foldName kv.1 ≠ foldName f.jsonName) →
        Unmarshal payload = Except.ok m → m.get f = "")
      ∧ (∀ (payload payload' : List Char) (ms₁ ms₂ : List (String × Json)) (k : String)
          (v : Json),
          parse payload = some (Json.obj (ms₁ ++ ms₂)) →
          parse payload' = some (Json.obj (ms₁ ++ (k, v) :: ms₂)) →
          (∀ f : Field, foldName k ≠ foldName f.jsonName) →
          Unmarshal payload' = Unmarshal payload
            ∧ ∀ (p : Platform) (w : World),
                messagePubHandler p payload' w = messagePubHandler p payload w) := by
  refine ⟨?_, ?_⟩
  · intro payload ms f m hparse habsent hdec
    have hno : ∀ kv ∈ ms, findField kv.1 ≠ some f := by
      intro kv hkv hfind
      exact habsent kv hkv (findField_some_fold kv.1 f hfind).symm
    rw [unmarshal_object payload ms hparse] at hdec
    have hget := decodeObject_get_absent f ms ⟨SmsMessage.zero, none⟩ hno
    cases hs : (decodeObject ms ⟨SmsMessage.zero, none⟩).savedError with
    | some e => simp [hs] at hdec
    | none =>
      simp only [hs, Except.ok.injEq] at hdec
      rw [← hdec, hget]
      cases f <;> rfl
  · intro payload payload' ms₁ ms₂ k v hparse hparse' hkey
    have hnone : findField k = none :=
      (findField_none_iff k).mpr (fun f e => hkey f e.symm)
    have heq : Unmarshal payload' = Unmarshal payload := by
      rw [unmarshal_object payload' _ hparse', unmarshal_object payload _ hparse,
        decodeObject_insert_unknown ms₁ ms₂ k v _ hnone]
    exact ⟨heq, fun p w => handler_congr p payload payload' w heq⟩

theorem unmatched_keys_ignored_witness :
    (Unmarshal "\x7b\"smsMsg\":\"Hello\",\"Phone\":\"+1\"\x7d".data
        = Except.ok ⟨"", "", "", "Hello"⟩
      ∧ (⟨"", "", "", "Hello"⟩ : SmsMessage).get Field.PhoneNumber = "")
    ∧ (Unmarshal
          "\x7b\"smsCode\":\"42\",\"extra\":[1,\x7b\"smsCode\":\"7\"\x7d],\"sender\":\"X\"\x7d".data
        = Unmarshal "\x7b\"smsCode\":\"42\",\"sender\":\"X\"\x7d".data
      ∧ messagePubHandler quietPlatform
          "\x7b\"smsCode\":\"42\",\"extra\":[1,\x7b\"smsCode\":\"7\"\x7d],\"sender\":\"X\"\x7d".data
          ⟨"old", []⟩
        = messagePubHandler quietPlatform "\x7b\"smsCode\":\"42\",\"sender\":\"X\"\x7d".data
          ⟨"old", []⟩) :=
  ⟨⟨rfl, unmatched_keys_ignored.1 "\x7b\"smsMsg\":\"Hello\",\"Phone\":\"+1\"\x7d".data
      [("smsMsg", Json.str "Hello"), ("Phone", Json.str "+1")] Field.PhoneNumber
      ⟨"", "", "", "Hello"⟩ rfl (by decide) rfl⟩,
   ⟨(unmatched_keys_ignored.2 "\x7b\"smsCode\":\"42\",\"sender\":\"X\"\x7d".data
      "\x7b\"smsCode\":\"42\",\"extra\":[1,\x7b\"smsCode\":\"7\"\x7d],\"sender\":\"X\"\x7d".data
      [("smsCode", Json.str "42")] [("sender", Json.str "X")] "extra"
      (Json.arr [Json.number "1", Json.obj [("smsCode", Json.str "7")]]) rfl rfl
      (fun f => by cases f <;> decide)).1,
    (unmatched_keys_ignored.2 "\x7b\"smsCode\":\"42\",\"sender\":\"X\"\x7d".data
      "\x7b\"smsCode\":\"42\",\"extra\":[1,\x7b\"smsCode\":\"7\"\x7d],\"sender\":\"X\"\x7d".data
      [("smsCode", Json.str "42")] [("sender", Json.str "X")] "extra"
      (Json.arr [Json.number "1", Json.obj [("smsCode", Json.str "7")]]) rfl rfl
      (fun f => by cases f <;> decide)).2 quietPlatform ⟨"old", []⟩⟩⟩

/-- C7 as stated fails: `SMSCODE` is not exactly one of the four names, yet
adding the member `"SMSCODE":"99"` to `{"smsCode":"42"}` changes the decoded
smsCode, and with it the clipboard, from "42" to "99"; and in
`{"SENDER":"Bank"}` no key is exactly `sender`, yet sender decodes to "Bank". -/
theorem case_folded_key_is_matched :
    ("SMSCODE" ≠ "sender" ∧ "SMSCODE" ≠ "smsCode" ∧ "SMSCODE" ≠ "phoneNumber"
        ∧ "SMSCODE" ≠ "smsMsg")
      ∧ Unmarshal "\x7b\"smsCode\":\"42\"\x7d".data = Except.ok ⟨"", "42", "", ""⟩
      ∧ Unmarshal "\x7b\"smsCode\":\"42\",\"SMSCODE\":\"99\"\x7d".data = Except.ok ⟨"", "99", "", ""⟩
      ∧ (messagePubHandler quietPlatform "\x7b\"smsCode\":\"42\"\x7d".data ⟨"", []⟩).clipboard = "42"
      ∧ (messagePubHandler quietPlatform "\x7b\"smsCode\":\"42\",\"SMSCODE\":\"99\"\x7d".data
          ⟨"", []⟩).clipboard = "99"
      ∧ Unmarshal "\x7b\"SENDER\":\"Bank\"\x7d".data = Except.ok ⟨"Bank", "", "", ""⟩ :=
  ⟨by decide, rfl, rfl, rfl, rfl, rfl⟩

/-- C8 fails on the code: with a connect that succeeds and a subscription whose
token completes with the error "subscription refused", `main` still logs the
subscription as made and goes on to the tray loop. -/
theorem subscribe_error_ignored :
    (({ Connect := ⟨none⟩, Subscribe := fun _ => ⟨some "subscription refused"⟩ } : Client).Subscribe
        "sms").error = some "subscription refused"
      ∧ main ⟨"tcp://broker:1883", "sms"⟩ (some (fun i => i))
          { Connect := ⟨none⟩, Subscribe := fun _ => ⟨some "subscription refused"⟩ }
        = { log := [Event.printf "已订阅主题: %s\n" [LogArg.str "sms"]],
            ending := Ending.trayLoop "00010203040506070809" } :=
  ⟨rfl, rfl⟩

/-- C9: for every decoded envelope with a non-empty smsCode the handler logs,
then starts the clipboard write, then pushes the notification, and returns;
the notification pushed has the same title and body whether the write fails or
not, and both are started whether or not either fails. -/
theorem effects_in_order (p : Platform) (payload : List Char) (w : World) (m : SmsMessage)
    (hdec : Unmarshal payload = Except.ok m) (hcode : m.SmsCode ≠ "") :
    (messagePubHandler p payload w).trace
      = w.trace ++
        [Event.printf "接收到消息: 发送者: %s, 验证码: %s, 手机号: %s\n"
           [LogArg.str m.Sender, LogArg.str m.SmsCode, LogArg.str m.PhoneNumber],
         Event.clipboardWrite m.SmsCode (p.writeFails m.SmsCode w.clipboard),
         Event.push
           { AppID := "手机消息接收器",
             Title := "来自: " ++ m.PhoneNumber,
             Message := "验证码: " ++ m.SmsCode ++ "\n" ++ "发送者: " ++ m.Sender }
           (p.pushFails
             { AppID := "手机消息接收器",
               Title := "来自: " ++ m.PhoneNumber,
               Message := "验证码: " ++ m.SmsCode ++ "\n" ++ "发送者: " ++ m.Sender })] := by
  rw [handler_code p payload w m hdec hcode]
  simp [notificationOf, hcode]

theorem effects_in_order_witness :
    Unmarshal "\x7b\"smsCode\":\"42\",\"sender\":\"X\"\x7d".data = Except.ok ⟨"X", "42", "", ""⟩
      ∧ (messagePubHandler brokenPlatform "\x7b\"smsCode\":\"42\",\"sender\":\"X\"\x7d".data
          ⟨"old", []⟩).trace
        = [Event.printf "接收到消息: 发送者: %s, 验证码: %s, 手机号: %s\n"
             [LogArg.str "X", LogArg.str "42", LogArg.str ""],
           Event.clipboardWrite "42" true,
           Event.push ⟨"手机消息接收器", "来自: ", "验证码: 42\n发送者: X"⟩ true] :=
  ⟨rfl, effects_in_order brokenPlatform _ ⟨"old", []⟩ ⟨"X", "42", "", ""⟩ rfl (by decide)⟩

/-- C10, as the code has it: a payload whose top-level value is an array, a
string, a number or a boolean is dropped with a log line, with no clipboard
write and no notification; a payload that decodes with an empty phoneNumber is
not dropped, its notification is pushed with the bare title "来自: "; and the
payload `null` decodes without error to the envelope of four empty fields. -/
theorem non_object_dropped_empty_phone_kept :
    (∀ (p : Platform) (payload : List Char) (w : World) (j : Json) (kind : String),
        parse payload = some j → rejectedKind j = some kind →
        messagePubHandler p payload w
          = { clipboard := w.clipboard,
              trace := w.trace ++ [Event.printf "消息解析错误: %v\n"
                [LogArg.err (UnmarshalError.typeError kind none)]] })
      ∧ (∀ (p : Platform) (payload : List Char) (w : World) (m : SmsMessage),
          Unmarshal payload = Except.ok m → m.PhoneNumber = "" →
          pushed (messagePubHandler p payload w).trace
            = pushed w.trace ++
              [{ AppID := "手机消息接收器",
                 Title := "来自: ",
                 Message :=
                   if m.SmsCode ≠ "" then
                     "验证码: " ++ m.SmsCode ++ "\n" ++ "发送者: " ++ m.Sender
                   else "内容: " ++ m.SmsMsg }])
      ∧ (∀ payload : List Char, parse payload = some Json.null →
          Unmarshal payload = Except.ok ⟨"", "", "", ""⟩) := by
  refine ⟨?_, ?_, ?_⟩
  · intro p payload w j kind hparse hkind
    exact handler_error p payload w _ (unmarshal_rejected payload j kind hparse hkind)
  · intro p payload w m hdec hphone
    have htitle : "来自: " ++ m.PhoneNumber = "来自: " := by rw [hphone]; rfl
    by_cases hc : m.SmsCode = ""
    · rw [handler_message p payload w m hdec hc]
      simp [pushed_append, pushed, notificationOf, hc, htitle]
    · rw [handler_code p payload w m hdec hc]
      simp [pushed_append, pushed, notificationOf, hc, htitle]
  · intro payload hparse
    simp [Unmarshal, hparse, decodeValue, SmsMessage.zero]

theorem non_object_dropped_empty_phone_kept_witness :
    (parse "[\"42\"]".data = some (Json.arr [Json.str "42"])
      ∧ messagePubHandler quietPlatform "[\"42\"]".data ⟨"old", []⟩
        = { clipboard := "old",
            trace := [Event.printf "消息解析错误: %v\n"
              [LogArg.err (UnmarshalError.typeError "array" none)]] })
    ∧ (Unmarshal "\x7b\"smsMsg\":\"Hello\"\x7d".data = Except.ok ⟨"", "", "", "Hello"⟩
      ∧ pushed (messagePubHandler quietPlatform "\x7b\"smsMsg\":\"Hello\"\x7d".data
          ⟨"old", []⟩).trace
        = [⟨"手机消息接收器", "来自: ", "内容: Hello"⟩])
    ∧ (parse "null".data = some Json.null
      ∧ Unmarshal "null".data = Except.ok ⟨"", "", "", ""⟩) :=
  ⟨⟨rfl, non_object_dropped_empty_phone_kept.1 quietPlatform "[\"42\"]".data ⟨"old", []⟩
      (Json.arr [Json.str "42"]) "array" rfl rfl⟩,
   ⟨rfl, non_object_dropped_empty_phone_kept.2.1 quietPlatform
      "\x7b\"smsMsg\":\"Hello\"\x7d".data ⟨"old", []⟩ ⟨"", "", "", "Hello"⟩ rfl rfl⟩,
   ⟨rfl, non_object_dropped_empty_phone_kept.2.2 "null".data rfl⟩⟩

/-- C10 as stated fails: the payload `{"smsCode":"42"}` decodes with an empty
phoneNumber, and the handler writes "42" to the clipboard and pushes a
notification instead of dropping it; the payload `null`, whose top-level value
is not an object, decodes without error and a notification is pushed for it. -/
theorem empty_phone_and_null_not_dropped :
    Unmarshal "\x7b\"smsCode\":\"42\"\x7d".data = Except.ok ⟨"", "42", "", ""⟩
      ∧ messagePubHandler quietPlatform "\x7b\"smsCode\":\"42\"\x7d".data ⟨"old", []⟩
        = { clipboard := "42",
            trace :=
              [Event.printf "接收到消息: 发送者: %s, 验证码: %s, 手机号: %s\n"
                 [LogArg.str "", LogArg.str "42", LogArg.str ""],
               Event.clipboardWrite "42" false,
               Event.push ⟨"手机消息接收器", "来自: ", "验证码: 42\n发送者: "⟩ false] }
      ∧ parse "null".data = some Json.null
      ∧ messagePubHandler quietPlatform "null".data ⟨"old", []⟩
        = { clipboard := "old",
            trace :=
              [Event.printf "接收到消息: 短信内容: %s, 手机号: %s\n"
                 [LogArg.str "", LogArg.str ""],
               Event.push ⟨"手机消息接收器", "来自: ", "内容: "⟩ false] } :=
  ⟨rfl, rfl, rfl, rfl⟩

end CodeTransporter
